import Mathlib

/-!
# Verification of the rlnjs protocol core

Shallow embedding of the rlnjs client library (src/rln.ts and
src/registry/index.ts) together with the field arithmetic and external
collaborators it builds on, and proofs of the specified properties.

Conventions:
* The scalar field prime of the proving system is `SNARK_FIELD_SIZE`
  (the constant of the same name in the utils module of the library).
* Field elements are modelled as `ℤ`; every `Fq` operation re-normalizes
  into `[0, SNARK_FIELD_SIZE)` via `Int.emod`.
* The Poseidon hash primitive, the Keccak byte hash and the Groth16
  backend are external collaborators and are modelled as opaque function
  parameters.
-/

set_option maxRecDepth 20000

/-- The scalar field prime of the BN254 curve used by the proving system
(`SNARK_FIELD_SIZE` in the utils module of the library). -/
def SNARK_FIELD_SIZE : ℕ :=
  21888242871839275222246405745257275088548364400416034343698204186575808495617

/-! ## Modular exponentiation and a Lucas primality certificate

`SNARK_FIELD_SIZE` must be shown prime for the secret-recovery proof
(invertibility of every nonzero field element). We certify primality via
`lucas_primality`, with fast modular exponentiation executable by the
kernel. -/

/-- Square-and-multiply exponentiation modulo `m`, driven by a fuel
parameter so that the recursion is structural. -/
def powModAux (m : ℕ) : ℕ → ℕ → ℕ → ℕ
  | 0, _, _ => 1 % m
  | fuel + 1, a, n =>
    if n = 0 then 1 % m
    else
      let r := powModAux m fuel (a * a % m) (n / 2)
      if n % 2 = 1 then a % m * r % m else r

/-- `a ^ n % m`, computed by square-and-multiply. -/
def powMod (m a n : ℕ) : ℕ := powModAux m n a n

theorem powModAux_correct (m : ℕ) :
    ∀ fuel a n, n < 2 ^ fuel → powModAux m fuel a n = a ^ n % m := by
  intro fuel
  induction fuel with
  | zero =>
    intro a n hn
    have : n = 0 := by simpa using hn
    subst this
    simp [powModAux]
  | succ f ih =>
    intro a n hn
    by_cases h0 : n = 0
    · subst h0; simp [powModAux]
    · rw [powModAux]
      simp only [h0, if_false]
      have hdiv : n / 2 < 2 ^ f := by
        rw [pow_succ] at hn
        omega
      rw [ih (a * a % m) (n / 2) hdiv]
      have hsq : (a * a % m) ^ (n / 2) % m = a ^ (2 * (n / 2)) % m := by
        rw [← Nat.pow_mod, ← pow_two, ← pow_mul]
      rw [hsq]
      by_cases hpar : n % 2 = 1
      · rw [if_pos hpar]
        have hne : n = 2 * (n / 2) + 1 := by omega
        conv_rhs => rw [hne, pow_succ, Nat.mul_mod]
        rw [mul_comm]
      · rw [if_neg hpar]
        have hne : 2 * (n / 2) = n := by omega
        rw [hne]

theorem powMod_correct (m a n : ℕ) : powMod m a n = a ^ n % m :=
  powModAux_correct m n a n (Nat.lt_two_pow n)

/-- Lucas primality certificate: `n` is prime when some `a` has
`a ^ (n-1) ≡ 1 (mod n)` but `a ^ ((n-1)/q) ≢ 1 (mod n)` for every prime
`q` of a complete factorization of `n - 1`. All modular powers are
checked through the executable `powMod`. -/
theorem lucasCert (n a : ℕ) (facs : List (ℕ × ℕ)) (hn : 2 ≤ n)
    (hprod : n - 1 = (facs.map fun qe => qe.1 ^ qe.2).prod)
    (hfac : ∀ qe ∈ facs, Nat.Prime qe.1)
    (hpow : powMod n a (n - 1) = 1)
    (hdiv : ∀ qe ∈ facs, powMod n a ((n - 1) / qe.1) ≠ 1) :
    Nat.Prime n := by
  have hn1 : (1 : ℕ) < n := hn
  apply lucas_primality n (a : ZMod n)
  · have h := powMod_correct n a (n - 1)
    rw [hpow] at h
    have hc : ((a ^ (n - 1) % n : ℕ) : ZMod n) = ((1 : ℕ) : ZMod n) := by
      rw [← h]
    rwa [ZMod.natCast_mod, Nat.cast_pow, Nat.cast_one] at hc
  · intro q hq hqd
    have hqmem : ∃ qe ∈ facs, q = qe.1 := by
      rw [hprod] at hqd
      obtain ⟨x, hxmem, hdvdx⟩ := (Nat.Prime.prime hq).dvd_prod_iff.mp hqd
      obtain ⟨qe, hqe, rfl⟩ := List.mem_map.mp hxmem
      exact ⟨qe, hqe, (Nat.prime_dvd_prime_iff_eq hq (hfac qe hqe)).mp
        (Nat.Prime.dvd_of_dvd_pow hq hdvdx)⟩
    obtain ⟨qe, hqe, rfl⟩ := hqmem
    intro hcon
    apply hdiv qe hqe
    have h := powMod_correct n a ((n - 1) / qe.1)
    have hc : ((a ^ ((n - 1) / qe.1) % n : ℕ) : ZMod n) = ((1 : ℕ) : ZMod n) := by
      rw [ZMod.natCast_mod, Nat.cast_pow, Nat.cast_one, hcon]
    have hmod := (ZMod.natCast_eq_natCast_iff' _ _ _).mp hc
    rw [Nat.mod_mod_of_dvd _ dvd_rfl, Nat.mod_eq_of_lt hn1] at hmod
    rw [h, hmod]

/-! Primality ladder for the Pratt certificate of `SNARK_FIELD_SIZE`. -/

theorem prime_2 : Nat.Prime 2 := by norm_num
theorem prime_3 : Nat.Prime 3 := by norm_num
theorem prime_5 : Nat.Prime 5 := by norm_num
theorem prime_7 : Nat.Prime 7 := by norm_num
theorem prime_11 : Nat.Prime 11 := by norm_num
theorem prime_13 : Nat.Prime 13 := by norm_num
theorem prime_19 : Nat.Prime 19 := by norm_num
theorem prime_29 : Nat.Prime 29 := by norm_num
theorem prime_83 : Nat.Prime 83 := by norm_num
theorem prime_107 : Nat.Prime 107 := by norm_num
theorem prime_229 : Nat.Prime 229 := by norm_num
theorem prime_379 : Nat.Prime 379 := by norm_num
theorem prime_661 : Nat.Prime 661 := by norm_num
theorem prime_823 : Nat.Prime 823 := by norm_num
theorem prime_853 : Nat.Prime 853 := by norm_num
theorem prime_983 : Nat.Prime 983 := by norm_num
theorem prime_1637 : Nat.Prime 1637 := by norm_num
theorem prime_3691 : Nat.Prime 3691 := by norm_num
theorem prime_4999 : Nat.Prime 4999 := by norm_num
theorem prime_11003 : Nat.Prime 11003 := by norm_num
theorem prime_41927 : Nat.Prime 41927 := by norm_num
theorem prime_93001 : Nat.Prime 93001 := by norm_num
theorem prime_237073 : Nat.Prime 237073 := by norm_num

theorem prime_1593227 : Nat.Prime 1593227 := by
  apply lucasCert 1593227 2 [(2, 1), (19, 1), (41927, 1)] (by norm_num)
  · decide
  · intro qe hqe
    fin_cases hqe
    · exact prime_2
    · exact prime_19
    · exact prime_41927
  · decide
  · intro qe hqe
    fin_cases hqe <;> decide

theorem prime_405928799 : Nat.Prime 405928799 := by
  apply lucasCert 405928799 22 [(2, 1), (11, 1), (3691, 1), (4999, 1)] (by norm_num)
  · decide
  · intro qe hqe
    fin_cases hqe
    · exact prime_2
    · exact prime_11
    · exact prime_3691
    · exact prime_4999
  · decide
  · intro qe hqe
    fin_cases hqe <;> decide

theorem prime_639533339 : Nat.Prime 639533339 := by
  apply lucasCert 639533339 2 [(2, 1), (229, 1), (853, 1), (1637, 1)] (by norm_num)
  · decide
  · intro qe hqe
    fin_cases hqe
    · exact prime_2
    · exact prime_229
    · exact prime_853
    · exact prime_1637
  · decide
  · intro qe hqe
    fin_cases hqe <;> decide

theorem prime_12048837557 : Nat.Prime 12048837557 := by
  apply lucasCert 12048837557 2 [(2, 2), (7, 2), (661, 1), (93001, 1)] (by norm_num)
  · decide
  · intro qe hqe
    fin_cases hqe
    · exact prime_2
    · exact prime_7
    · exact prime_661
    · exact prime_93001
  · decide
  · intro qe hqe
    fin_cases hqe <;> decide

theorem prime_5156902474397 : Nat.Prime 5156902474397 := by
  apply lucasCert 5156902474397 2 [(2, 2), (107, 1), (12048837557, 1)] (by norm_num)
  · decide
  · intro qe hqe
    fin_cases hqe
    · exact prime_2
    · exact prime_107
    · exact prime_12048837557
  · decide
  · intro qe hqe
    fin_cases hqe <;> decide

theorem prime_1670836401704629 : Nat.Prime 1670836401704629 := by
  apply lucasCert 1670836401704629 2 [(2, 2), (3, 4), (5156902474397, 1)] (by norm_num)
  · decide
  · intro qe hqe
    fin_cases hqe
    · exact prime_2
    · exact prime_3
    · exact prime_5156902474397
  · decide
  · intro qe hqe
    fin_cases hqe <;> decide

theorem prime_65865678001877903 : Nat.Prime 65865678001877903 := by
  apply lucasCert 65865678001877903 5 [(2, 1), (83, 1), (379, 1), (1637, 1), (639533339, 1)] (by norm_num)
  · decide
  · intro qe hqe
    fin_cases hqe
    · exact prime_2
    · exact prime_83
    · exact prime_379
    · exact prime_1637
    · exact prime_639533339
  · decide
  · intro qe hqe
    fin_cases hqe <;> decide

theorem prime_13818364434197438864469338081 : Nat.Prime 13818364434197438864469338081 := by
  apply lucasCert 13818364434197438864469338081 3 [(2, 5), (5, 1), (823, 1), (1593227, 1), (65865678001877903, 1)] (by norm_num)
  · decide
  · intro qe hqe
    fin_cases hqe
    · exact prime_2
    · exact prime_5
    · exact prime_823
    · exact prime_1593227
    · exact prime_65865678001877903
  · decide
  · intro qe hqe
    fin_cases hqe <;> decide

/-- The BN254 scalar field modulus is prime. -/
theorem SNARK_FIELD_SIZE_prime : Nat.Prime SNARK_FIELD_SIZE := by
  apply lucasCert SNARK_FIELD_SIZE 5 [(2, 28), (3, 2), (13, 1), (29, 1), (983, 1), (11003, 1), (237073, 1), (405928799, 1), (1670836401704629, 1), (13818364434197438864469338081, 1)] (by norm_num [SNARK_FIELD_SIZE])
  · decide
  · intro qe hqe
    fin_cases hqe
    · exact prime_2
    · exact prime_3
    · exact prime_13
    · exact prime_29
    · exact prime_983
    · exact prime_11003
    · exact prime_237073
    · exact prime_405928799
    · exact prime_1670836401704629
    · exact prime_13818364434197438864469338081
  · decide
  · intro qe hqe
    fin_cases hqe <;> decide

/-! ## Field arithmetic

Modelled from the spec: the `Fq` object of the library (a `ZqField` over
`SNARK_FIELD_SIZE` in the utils module, which is not part of the provided
sources) per §4.1: `add`/`sub`/`mul` are modular operations re-normalized
into `[0, p)`, `div` is `a * b⁻¹ mod p` failing with a DivisionByZero
error when `b ≡ 0 (mod p)`, and `normalize` maps any integer to its
canonical representative in `[0, p)`. -/

/-- Error taxonomy of the spec (§7). -/
inductive Err where
  | invalidConfiguration
  | outOfRange
  | capacityExceeded
  | divisionByZero
  | notInitialized
deriving DecidableEq

namespace Fq

/-- Canonical representative in `[0, p)` of any integer. -/
def normalize (a : ℤ) : ℤ := a % (SNARK_FIELD_SIZE : ℤ)

def add (a b : ℤ) : ℤ := (a + b) % (SNARK_FIELD_SIZE : ℤ)

def sub (a b : ℤ) : ℤ := (a - b) % (SNARK_FIELD_SIZE : ℤ)

def mul (a b : ℤ) : ℤ := (a * b) % (SNARK_FIELD_SIZE : ℤ)

/-- Multiplicative inverse modulo the field prime, via the Fermat little
theorem; fails with DivisionByZero when the argument is `≡ 0 (mod p)`. -/
def inv (a : ℤ) : Except Err ℤ :=
  if a % (SNARK_FIELD_SIZE : ℤ) = 0 then .error .divisionByZero
  else .ok ((powMod SNARK_FIELD_SIZE (a % (SNARK_FIELD_SIZE : ℤ)).toNat
    (SNARK_FIELD_SIZE - 2) : ℕ) : ℤ)

/-- `a · b⁻¹ mod p`; fails with DivisionByZero when `b ≡ 0 (mod p)`. -/
def div (a b : ℤ) : Except Err ℤ :=
  (inv b).map fun bi => (a * bi) % (SNARK_FIELD_SIZE : ℤ)

end Fq

theorem SNARK_FIELD_SIZE_pos : (0 : ℤ) < (SNARK_FIELD_SIZE : ℤ) := by
  norm_num [SNARK_FIELD_SIZE]

theorem one_lt_SNARK_FIELD_SIZE : (1 : ℤ) < (SNARK_FIELD_SIZE : ℤ) := by
  norm_num [SNARK_FIELD_SIZE]

/-- `a % p` is congruent to `a`. -/
theorem emod_modEq (a : ℤ) :
    a % (SNARK_FIELD_SIZE : ℤ) ≡ a [ZMOD (SNARK_FIELD_SIZE : ℤ)] :=
  (Int.emod_emod_of_dvd a dvd_rfl : a % _ % _ = a % _)

/-- Correctness of `Fq.inv`: on any `a ≢ 0 (mod p)` it succeeds and
returns a multiplicative inverse of `a` in `[0, p)`. -/
theorem Fq.inv_ok (a : ℤ) (h : a % (SNARK_FIELD_SIZE : ℤ) ≠ 0) :
    ∃ b, Fq.inv a = .ok b ∧ 0 ≤ b ∧ b < (SNARK_FIELD_SIZE : ℤ) ∧
      (a * b) % (SNARK_FIELD_SIZE : ℤ) = 1 := by
  haveI : Fact (Nat.Prime SNARK_FIELD_SIZE) := ⟨SNARK_FIELD_SIZE_prime⟩
  set N := SNARK_FIELD_SIZE with hN
  set n : ℕ := (a % (N : ℤ)).toNat with hn
  have hmodnn : (0 : ℤ) ≤ a % (N : ℤ) := Int.emod_nonneg a (ne_of_gt SNARK_FIELD_SIZE_pos)
  have hmodlt : a % (N : ℤ) < (N : ℤ) := Int.emod_lt_of_pos a SNARK_FIELD_SIZE_pos
  have hcast : ((n : ℤ)) = a % (N : ℤ) := Int.toNat_of_nonneg hmodnn
  have hnpos : 0 < n := by
    rcases Nat.eq_zero_or_pos n with h0 | h0
    · exfalso; apply h; rw [← hcast, h0]; rfl
    · exact h0
  have hnlt : n < N := by
    have : ((n : ℤ)) < (N : ℤ) := by rw [hcast]; exact hmodlt
    exact_mod_cast this
  -- the Nat-level inverse identity, proved in `ZMod N`
  have hnat : (n * (n ^ (N - 2) % N)) % N = 1 := by
    have hzne : ((n : ZMod N)) ≠ 0 := by
      intro hz
      have := (ZMod.natCast_zmod_eq_zero_iff_dvd n N).mp hz
      have := Nat.le_of_dvd hnpos this
      omega
    have hfermat : ((n : ZMod N)) ^ (N - 1) = 1 :=
      ZMod.pow_card_sub_one_eq_one hzne
    have hsucc : N - 2 + 1 = N - 1 := by
      have : 2 ≤ N := SNARK_FIELD_SIZE_prime.two_le
      omega
    have hz : ((n * (n ^ (N - 2) % N) : ℕ) : ZMod N) = ((1 : ℕ) : ZMod N) := by
      push_cast [ZMod.natCast_mod]
      rw [mul_comm, ← pow_succ, hsucc, hfermat]
    have := (ZMod.natCast_eq_natCast_iff' _ _ _).mp hz
    rwa [Nat.mod_eq_of_lt SNARK_FIELD_SIZE_prime.one_lt] at this
  have hblt : ((n ^ (N - 2) % N : ℕ) : ℤ) % (N : ℤ) = ((n ^ (N - 2) % N : ℕ) : ℤ) := by
    apply Int.emod_eq_of_lt (by positivity)
    exact_mod_cast Nat.mod_lt _ (Nat.lt_of_lt_of_le Nat.zero_lt_one
      SNARK_FIELD_SIZE_prime.one_lt.le)
  refine ⟨((powMod N n (N - 2) : ℕ) : ℤ), ?_, by positivity, ?_, ?_⟩
  · rw [Fq.inv, if_neg h]
  · rw [powMod_correct]
    exact_mod_cast Nat.mod_lt _ (Nat.lt_of_lt_of_le Nat.zero_lt_one
      SNARK_FIELD_SIZE_prime.one_lt.le)
  · rw [powMod_correct, Int.mul_emod, ← hcast, hblt, ← Nat.cast_mul, ← Int.natCast_mod,
      hnat, Nat.cast_one]

/-- Correctness of `Fq.div`: on `b ≢ 0 (mod p)` it succeeds, and the
result `c` satisfies `b * c ≡ a (mod p)`. -/
theorem Fq.div_ok (a b : ℤ) (h : b % (SNARK_FIELD_SIZE : ℤ) ≠ 0) :
    ∃ c, Fq.div a b = .ok c ∧
      (b * c) % (SNARK_FIELD_SIZE : ℤ) = a % (SNARK_FIELD_SIZE : ℤ) := by
  obtain ⟨bi, hok, _, _, hinv⟩ := Fq.inv_ok b h
  refine ⟨(a * bi) % (SNARK_FIELD_SIZE : ℤ), ?_, ?_⟩
  · rw [Fq.div, hok]; rfl
  · calc (b * ((a * bi) % (SNARK_FIELD_SIZE : ℤ))) % (SNARK_FIELD_SIZE : ℤ)
        = (b * (a * bi)) % (SNARK_FIELD_SIZE : ℤ) := by
          rw [Int.mul_emod, Int.emod_emod_of_dvd _ dvd_rfl, ← Int.mul_emod]
      _ = ((b * bi) % (SNARK_FIELD_SIZE : ℤ) * a) % (SNARK_FIELD_SIZE : ℤ) := by
          rw [Int.mul_emod ((b * bi) % _) a, Int.emod_emod_of_dvd _ dvd_rfl,
            ← Int.mul_emod]
          ring_nf
      _ = a % (SNARK_FIELD_SIZE : ℤ) := by rw [hinv, one_mul]

/-- Multiplication by an element `≢ 0 (mod p)` can be cancelled modulo
the (prime) field modulus. -/
theorem Fq.mul_cancel (d u v : ℤ) (hd : d % (SNARK_FIELD_SIZE : ℤ) ≠ 0)
    (h : (d * u) % (SNARK_FIELD_SIZE : ℤ) = (d * v) % (SNARK_FIELD_SIZE : ℤ)) :
    u % (SNARK_FIELD_SIZE : ℤ) = v % (SNARK_FIELD_SIZE : ℤ) := by
  have hprime : Prime ((SNARK_FIELD_SIZE : ℕ) : ℤ) :=
    Nat.prime_iff_prime_int.mp SNARK_FIELD_SIZE_prime
  have hdvd : ((SNARK_FIELD_SIZE : ℕ) : ℤ) ∣ d * (u - v) := by
    have : ((SNARK_FIELD_SIZE : ℕ) : ℤ) ∣ d * u - d * v :=
      Int.ModEq.dvd (Int.ModEq.symm h)
    rwa [← mul_sub] at this
  rcases hprime.dvd_mul.mp hdvd with hc | hc
  · exact absurd (Int.emod_eq_zero_of_dvd hc) hd
  · exact Int.ModEq.symm (Int.modEq_iff_dvd.mpr hc)

/-! ## Protocol core (src/rln.ts)

The Poseidon hash handle is the lazily-initialized, process-wide state of
the `RLN` class (`RLN._poseidon`): `none` models the handle before its
asynchronous initialization has completed, in which case every operation
that needs it fails (spec §5/§7: NotInitialized). -/

/-- An external Poseidon hash: ordered sequence of field elements to one
field element. -/
def PoseidonFn : Type := List ℤ → ℤ

namespace RLN

/-- `RLN.poseidon`: applies the lazily-initialized Poseidon handle; fails
before initialization has completed. -/
def poseidon (st : Option PoseidonFn) (input : List ℤ) : Except Err ℤ :=
  match st with
  | none => .error .notInitialized
  | some f => .ok (f input)

/-- `RLN.genNullifier`: `Poseidon(a1, rlnIdentifier)`. -/
def genNullifier (st : Option PoseidonFn) (a1 rlnIdentifier : ℤ) : Except Err ℤ :=
  poseidon st [a1, rlnIdentifier]

/-- `RLN.calculateOutput`: `a1 = Poseidon(identitySecret, epoch)`,
`y = normalize(a1 * x + identitySecret)`,
`nullifier = genNullifier(a1, rlnIdentifier)`; returns `[y, nullifier]`. -/
def calculateOutput (st : Option PoseidonFn)
    (identitySecret epoch rlnIdentifier x : ℤ) : Except Err (List ℤ) := do
  let a1 ← poseidon st [identitySecret, epoch]
  let y := Fq.normalize (a1 * x + identitySecret)
  let nullifier ← genNullifier st a1 rlnIdentifier
  return [y, nullifier]

/-- `RLN.retrieveSecret`: two-share recovery,
`slope = (y2 - y1) / (x2 - x1)`, `secret = normalize(y1 - slope * x1)`. -/
def retrieveSecret (x1 x2 y1 y2 : ℤ) : Except Err ℤ := do
  let slope ← Fq.div (Fq.sub y2 y1) (Fq.sub x2 x1)
  let privateKey := Fq.sub y1 (Fq.mul slope x1)
  return Fq.normalize privateKey

end RLN

/-- Evaluation of `calculateOutput` on an initialized Poseidon handle. -/
theorem calculateOutput_eq (f : PoseidonFn) (identitySecret epoch rlnIdentifier x : ℤ) :
    RLN.calculateOutput (some f) identitySecret epoch rlnIdentifier x =
      .ok [(f [identitySecret, epoch] * x + identitySecret) % (SNARK_FIELD_SIZE : ℤ),
           f [f [identitySecret, epoch], rlnIdentifier]] := rfl

/-- A concrete stand-in Poseidon used to instantiate witnesses. -/
def demoPoseidon : PoseidonFn := fun l => l.sum

/-- `retrieveSecret` on a successfully computed slope. -/
theorem retrieveSecret_ok_of (x1 x2 y1 y2 c : ℤ)
    (h : Fq.div (Fq.sub y2 y1) (Fq.sub x2 x1) = .ok c) :
    RLN.retrieveSecret x1 x2 y1 y2 =
      .ok (Fq.normalize (Fq.sub y1 (Fq.mul c x1))) := by
  simp [RLN.retrieveSecret, h, Except.bind]

/-- C1: for a fixed identitySecret, epoch and rlnIdentifier, the outputs
of `calculateOutput` at two `x` values that are distinct mod p are two
points from which `retrieveSecret` recovers the canonical representative
of the identity secret. -/
theorem retrieveSecret_recovers_secret (f : PoseidonFn)
    (identitySecret epoch rlnIdentifier x1 x2 y1 n1 y2 n2 : ℤ)
    (hx : x1 % (SNARK_FIELD_SIZE : ℤ) ≠ x2 % (SNARK_FIELD_SIZE : ℤ))
    (h1 : RLN.calculateOutput (some f) identitySecret epoch rlnIdentifier x1 = .ok [y1, n1])
    (h2 : RLN.calculateOutput (some f) identitySecret epoch rlnIdentifier x2 = .ok [y2, n2]) :
    RLN.retrieveSecret x1 x2 y1 y2 = .ok (identitySecret % (SNARK_FIELD_SIZE : ℤ)) := by
  rw [calculateOutput_eq] at h1 h2
  simp only [Except.ok.injEq, List.cons.injEq, and_true] at h1 h2
  obtain ⟨hy1, -⟩ := h1
  obtain ⟨hy2, -⟩ := h2
  have hd : (x2 - x1) % (SNARK_FIELD_SIZE : ℤ) ≠ 0 := by
    intro h0
    exact hx (Int.emod_eq_emod_iff_emod_sub_eq_zero.mpr h0).symm
  have hdne : Fq.sub x2 x1 % (SNARK_FIELD_SIZE : ℤ) ≠ 0 := by
    rw [Fq.sub, Int.emod_emod_of_dvd _ dvd_rfl]
    exact hd
  obtain ⟨slope, hok, hslope⟩ := Fq.div_ok (Fq.sub y2 y1) (Fq.sub x2 x1) hdne
  -- the computed slope is congruent to a1 = Poseidon(identitySecret, epoch)
  have e1 : (x2 - x1) * slope ≡ Fq.sub x2 x1 * slope [ZMOD (SNARK_FIELD_SIZE : ℤ)] :=
    Int.ModEq.mul_right slope (emod_modEq (x2 - x1)).symm
  have e2 : Fq.sub x2 x1 * slope ≡ Fq.sub y2 y1 [ZMOD (SNARK_FIELD_SIZE : ℤ)] := hslope
  have e3 : Fq.sub y2 y1 ≡ y2 - y1 [ZMOD (SNARK_FIELD_SIZE : ℤ)] := by
    rw [Fq.sub]
    exact emod_modEq _
  have e4 : y2 - y1 ≡ (x2 - x1) * f [identitySecret, epoch]
      [ZMOD (SNARK_FIELD_SIZE : ℤ)] := by
    rw [← hy1, ← hy2]
    have e5 : (f [identitySecret, epoch] * x2 + identitySecret) % (SNARK_FIELD_SIZE : ℤ)
        - (f [identitySecret, epoch] * x1 + identitySecret) % (SNARK_FIELD_SIZE : ℤ)
        ≡ (f [identitySecret, epoch] * x2 + identitySecret)
          - (f [identitySecret, epoch] * x1 + identitySecret)
          [ZMOD (SNARK_FIELD_SIZE : ℤ)] :=
      Int.ModEq.sub (emod_modEq _) (emod_modEq _)
    have e6 : (f [identitySecret, epoch] * x2 + identitySecret)
        - (f [identitySecret, epoch] * x1 + identitySecret)
        = (x2 - x1) * f [identitySecret, epoch] := by ring
    rw [e6] at e5
    exact e5
  have hsl : slope % (SNARK_FIELD_SIZE : ℤ) =
      f [identitySecret, epoch] % (SNARK_FIELD_SIZE : ℤ) :=
    Fq.mul_cancel (x2 - x1) slope (f [identitySecret, epoch]) hd
      (((e1.trans e2).trans e3).trans e4)
  rw [retrieveSecret_ok_of x1 x2 y1 y2 slope hok]
  congr 1
  -- the reconstructed value is congruent to the identity secret
  have e7 : y1 - (slope * x1) % (SNARK_FIELD_SIZE : ℤ)
      ≡ (f [identitySecret, epoch] * x1 + identitySecret)
        - f [identitySecret, epoch] * x1 [ZMOD (SNARK_FIELD_SIZE : ℤ)] := by
    apply Int.ModEq.sub
    · rw [← hy1]
      exact emod_modEq _
    · exact (emod_modEq _).trans (Int.ModEq.mul_right x1 hsl)
  have e8 : (f [identitySecret, epoch] * x1 + identitySecret)
      - f [identitySecret, epoch] * x1 = identitySecret := by ring
  rw [e8] at e7
  show Fq.normalize (Fq.sub y1 (Fq.mul slope x1)) = _
  rw [Fq.normalize, Fq.sub, Fq.mul, Int.emod_emod_of_dvd _ dvd_rfl]
  exact e7

/-- Witness for C1 at concrete inputs. -/
theorem retrieveSecret_recovers_secret_witness :
    ((0 : ℤ) % (SNARK_FIELD_SIZE : ℤ) ≠ (1 : ℤ) % (SNARK_FIELD_SIZE : ℤ))
    ∧ RLN.retrieveSecret 0 1 10 21 = .ok ((10 : ℤ) % (SNARK_FIELD_SIZE : ℤ)) :=
  ⟨by norm_num [SNARK_FIELD_SIZE],
   retrieveSecret_recovers_secret demoPoseidon 10 1 2 0 1 10 13 21 13
     (by norm_num [SNARK_FIELD_SIZE]) rfl rfl⟩

/-- C2: `calculateOutput` returns exactly the pair
`(normalize(a1 * x + identitySecret), Poseidon(a1, rlnIdentifier))` with
`a1 = Poseidon(identitySecret, epoch)`; the returned `y` is the canonical
representative in `[0, p)`; and `genNullifier(a1, rlnIdentifier)` is
`Poseidon(a1, rlnIdentifier)`. -/
theorem calculateOutput_formula (f : PoseidonFn)
    (identitySecret epoch rlnIdentifier x a1 : ℤ) :
    RLN.calculateOutput (some f) identitySecret epoch rlnIdentifier x =
      .ok [(f [identitySecret, epoch] * x + identitySecret) % (SNARK_FIELD_SIZE : ℤ),
           f [f [identitySecret, epoch], rlnIdentifier]]
    ∧ (0 : ℤ) ≤ (f [identitySecret, epoch] * x + identitySecret) % (SNARK_FIELD_SIZE : ℤ)
    ∧ (f [identitySecret, epoch] * x + identitySecret) % (SNARK_FIELD_SIZE : ℤ)
        < (SNARK_FIELD_SIZE : ℤ)
    ∧ RLN.genNullifier (some f) a1 rlnIdentifier = .ok (f [a1, rlnIdentifier]) := by
  refine ⟨calculateOutput_eq f identitySecret epoch rlnIdentifier x, ?_, ?_, rfl⟩
  · exact Int.emod_nonneg _ (ne_of_gt SNARK_FIELD_SIZE_pos)
  · exact Int.emod_lt_of_pos _ SNARK_FIELD_SIZE_pos

/-- C3: `retrieveSecret` fails with DivisionByZero on equal `x` shares,
and in general it fails (necessarily with DivisionByZero) exactly when
`x1 ≡ x2 (mod p)`. -/
theorem retrieveSecret_divisionByZero (x y1 y2 x1 x2 y3 y4 : ℤ) :
    RLN.retrieveSecret x x y1 y2 = .error .divisionByZero
    ∧ (RLN.retrieveSecret x1 x2 y3 y4 = .error .divisionByZero ↔
        x1 % (SNARK_FIELD_SIZE : ℤ) = x2 % (SNARK_FIELD_SIZE : ℤ)) := by
  have key : ∀ a b c d : ℤ,
      (RLN.retrieveSecret a b c d = .error .divisionByZero ↔
        a % (SNARK_FIELD_SIZE : ℤ) = b % (SNARK_FIELD_SIZE : ℤ)) := by
    intro a b c d
    constructor
    · intro h
      by_contra hne
      have hd : (b - a) % (SNARK_FIELD_SIZE : ℤ) ≠ 0 := fun h0 =>
        hne (Int.emod_eq_emod_iff_emod_sub_eq_zero.mpr h0).symm
      have hdne : Fq.sub b a % (SNARK_FIELD_SIZE : ℤ) ≠ 0 := by
        rw [Fq.sub, Int.emod_emod_of_dvd _ dvd_rfl]
        exact hd
      obtain ⟨slope, hok, -⟩ := Fq.div_ok (Fq.sub d c) (Fq.sub b a) hdne
      rw [retrieveSecret_ok_of a b c d slope hok] at h
      exact Except.noConfusion h
    · intro h
      have h0 : (b - a) % (SNARK_FIELD_SIZE : ℤ) = 0 :=
        Int.emod_eq_emod_iff_emod_sub_eq_zero.mp h.symm
      have hz : Fq.sub b a % (SNARK_FIELD_SIZE : ℤ) = 0 := by
        rw [Fq.sub, Int.emod_emod_of_dvd _ dvd_rfl]
        exact h0
      simp [RLN.retrieveSecret, Fq.div, Fq.inv, hz, Except.bind, Except.map]
  exact ⟨(key x x y1 y2).mpr rfl, key x1 x2 y3 y4⟩

/-! ## Signal hashing and witness assembly (src/rln.ts) -/

/-- Standard UTF-8 encoding of a single code point, as byte values. -/
def utf8EncodeCharNat (c : ℕ) : List ℕ :=
  if c < 0x80 then [c]
  else if c < 0x800 then
    [0xC0 + c / 64, 0x80 + c % 64]
  else if c < 0x10000 then
    [0xE0 + c / 4096, 0x80 + c / 64 % 64, 0x80 + c % 64]
  else
    [0xF0 + c / 262144, 0x80 + c / 4096 % 64, 0x80 + c / 64 % 64, 0x80 + c % 64]

/-- The UTF-8 byte encoding of a string (`toUtf8Bytes` in the source). -/
def utf8Bytes (signal : String) : List ℕ :=
  signal.data.flatMap fun c => utf8EncodeCharNat c.toNat

/-- `RLN.genSignalHash`: Keccak-hash the UTF-8 bytes of the signal,
interpret the digest as a big-endian integer (`hexlify` + `BigInt`), and
shift right by 8 bits. The Keccak byte hash is an external collaborator,
modelled as an opaque function from byte sequences to digests-as-integers. -/
def RLN.genSignalHash (keccak : List ℕ → ℕ) (signal : String) : ℕ :=
  keccak (utf8Bytes signal) >>> 8

/-- C4: `genSignalHash` is the keccak digest of the UTF-8 bytes of the
signal shifted right by 8 bits; whenever the digest is a 256-bit value
the result lies strictly inside the field; and the function is
deterministic. -/
theorem genSignalHash_spec (keccak : List ℕ → ℕ)
    (hk : ∀ bs, keccak bs < 2 ^ 256) (s t : String) :
    RLN.genSignalHash keccak s = keccak (utf8Bytes s) / 2 ^ 8
    ∧ RLN.genSignalHash keccak s < SNARK_FIELD_SIZE
    ∧ (s = t → RLN.genSignalHash keccak s = RLN.genSignalHash keccak t) := by
  have hdiv : RLN.genSignalHash keccak s = keccak (utf8Bytes s) / 2 ^ 8 :=
    Nat.shiftRight_eq_div_pow _ _
  refine ⟨hdiv, ?_, fun h => by rw [h]⟩
  rw [hdiv]
  have h1 : keccak (utf8Bytes s) / 2 ^ 8 < 2 ^ 248 := by
    rw [Nat.div_lt_iff_lt_mul (by norm_num)]
    calc keccak (utf8Bytes s) < 2 ^ 256 := hk _
      _ = 2 ^ 248 * 2 ^ 8 := by norm_num
  calc keccak (utf8Bytes s) / 2 ^ 8 < 2 ^ 248 := h1
    _ < SNARK_FIELD_SIZE := by norm_num [SNARK_FIELD_SIZE]

/-- Witness for C4 at a concrete keccak stand-in and signal. -/
theorem genSignalHash_spec_witness :
    (∀ bs : List ℕ, (fun l : List ℕ => (l.sum + l.length) % 2 ^ 256) bs < 2 ^ 256)
    ∧ RLN.genSignalHash (fun l : List ℕ => (l.sum + l.length) % 2 ^ 256) "hello" =
        (fun l : List ℕ => (l.sum + l.length) % 2 ^ 256) (utf8Bytes "hello") / 2 ^ 8
    ∧ RLN.genSignalHash (fun l : List ℕ => (l.sum + l.length) % 2 ^ 256) "hello"
        < SNARK_FIELD_SIZE := by
  have hk : ∀ bs : List ℕ, (fun l : List ℕ => (l.sum + l.length) % 2 ^ 256) bs < 2 ^ 256 :=
    fun bs => Nat.mod_lt _ (by norm_num)
  obtain ⟨h1, h2, -⟩ :=
    genSignalHash_spec (fun l : List ℕ => (l.sum + l.length) % 2 ^ 256) hk "hello" "hello"
  exact ⟨hk, h1, h2⟩

/-- A Merkle membership proof: ordered sibling values and ordered
path-direction indicators from a leaf to the root (plus the root and the
leaf value, as produced by the tree collaborator). -/
structure MerkleProof where
  root : ℤ
  leaf : ℤ
  siblings : List ℤ
  pathIndices : List ℕ
deriving DecidableEq

/-- The `x` slot of an RLN witness: either the hash of the signal or the
caller-supplied signal used verbatim (`shouldHash = false`). -/
inductive SignalValue where
  | hashed : ℕ → SignalValue
  | raw : String → SignalValue
deriving DecidableEq

/-- The witness bundle handed to the external proof backend. -/
structure RLNWitness where
  identity_secret : ℤ
  path_elements : List ℤ
  identity_path_index : List ℕ
  x : SignalValue
  epoch : ℤ
  rln_identifier : ℤ
deriving DecidableEq

/-- `RLN.genWitness`: assembles the witness bundle. -/
def RLN.genWitness (keccak : List ℕ → ℕ) (identitySecret : ℤ)
    (merkleProof : MerkleProof) (epoch : ℤ) (signal : String)
    (rlnIdentifier : ℤ) (shouldHash : Bool) : RLNWitness :=
  { identity_secret := identitySecret
    path_elements := merkleProof.siblings
    identity_path_index := merkleProof.pathIndices
    x := if shouldHash then .hashed (RLN.genSignalHash keccak signal)
         else .raw signal
    epoch := epoch
    rln_identifier := rlnIdentifier }

/-- `genWitness` with the default of the source `shouldHash = true`. -/
def RLN.genWitnessDefault (keccak : List ℕ → ℕ) (identitySecret : ℤ)
    (merkleProof : MerkleProof) (epoch : ℤ) (signal : String)
    (rlnIdentifier : ℤ) : RLNWitness :=
  RLN.genWitness keccak identitySecret merkleProof epoch signal rlnIdentifier true

/-- C5: the witness bundle contains exactly the identity secret, the
ordered sibling path and ordered path-direction sequence of the proof, the
indicators, `x`, the epoch and the rlnIdentifier, where `x` is
`genSignalHash(signal)` when `shouldHash` is true (the default) and the
caller-supplied signal verbatim when `shouldHash` is false. -/
theorem genWitness_assembles (keccak : List ℕ → ℕ) (identitySecret : ℤ)
    (merkleProof : MerkleProof) (epoch : ℤ) (signal : String)
    (rlnIdentifier : ℤ) (shouldHash : Bool) :
    (RLN.genWitness keccak identitySecret merkleProof epoch signal rlnIdentifier
        shouldHash).identity_secret = identitySecret
    ∧ (RLN.genWitness keccak identitySecret merkleProof epoch signal rlnIdentifier
        shouldHash).path_elements = merkleProof.siblings
    ∧ (RLN.genWitness keccak identitySecret merkleProof epoch signal rlnIdentifier
        shouldHash).identity_path_index = merkleProof.pathIndices
    ∧ (RLN.genWitness keccak identitySecret merkleProof epoch signal rlnIdentifier
        shouldHash).epoch = epoch
    ∧ (RLN.genWitness keccak identitySecret merkleProof epoch signal rlnIdentifier
        shouldHash).rln_identifier = rlnIdentifier
    ∧ (RLN.genWitness keccak identitySecret merkleProof epoch signal rlnIdentifier
        true).x = .hashed (RLN.genSignalHash keccak signal)
    ∧ (RLN.genWitness keccak identitySecret merkleProof epoch signal rlnIdentifier
        false).x = .raw signal
    ∧ RLN.genWitnessDefault keccak identitySecret merkleProof epoch signal rlnIdentifier
        = RLN.genWitness keccak identitySecret merkleProof epoch signal rlnIdentifier
            true :=
  ⟨rfl, rfl, rfl, rfl, rfl, rfl, rfl, rfl⟩

/-! ## Membership registry (src/registry/index.ts)

The incremental Merkle tree is an external collaborator
(`@zk-kit/incremental-merkle-tree`, consumed as a black box).
Modelled from the spec: a fixed-capacity (`2 ^ depth`), arity-2 tree over
an ordered leaf sequence; unoccupied slots are virtually the zero value;
`insert` appends (CapacityExceeded when full), `delete` resets an
occupied slot to the zero value (OutOfRange otherwise) without shrinking
the sequence; the root and membership proofs are pure functions of the
current leaf sequence (§3, §6). -/

/-- State of the incremental Merkle tree collaborator. -/
structure IMTree where
  hash : ℤ → ℤ → ℤ
  depth : ℕ
  zero : ℤ
  leaves : List ℤ

namespace IMTree

/-- Node value at `(level, position)`: the tree is the full binary tree
over the leaf sequence padded with the zero value (missing children are
the cascaded zero of their level). -/
def node (t : IMTree) : ℕ → ℕ → ℤ
  | 0, j => t.leaves.getD j t.zero
  | l + 1, j => t.hash (node t l (2 * j)) (node t l (2 * j + 1))

/-- The current Merkle root. -/
def root (t : IMTree) : ℤ := t.node t.depth 0

/-- Appends a leaf at the next unused index; fails when the tree is
full. -/
def insert (t : IMTree) (v : ℤ) : Except Err IMTree :=
  if 2 ^ t.depth ≤ t.leaves.length then .error .capacityExceeded
  else .ok { t with leaves := t.leaves ++ [v] }

/-- Resets the slot at `index` to the zero value; fails when `index` is
outside the occupied range. The leaf sequence never shrinks. -/
def delete (t : IMTree) (index : ℕ) : Except Err IMTree :=
  if t.leaves.length ≤ index then .error .outOfRange
  else .ok { t with leaves := t.leaves.set index t.zero }

/-- Position of the sibling of position `j` within one level. -/
def sibIndex (j : ℕ) : ℕ := if j % 2 = 0 then j + 1 else j - 1

/-- The ordered `(sibling value, path direction)` pairs from a leaf to
the root: `d` levels starting at `(level l, position j)`. -/
def pathAux (t : IMTree) : ℕ → ℕ → ℕ → List (ℤ × ℕ)
  | 0, _, _ => []
  | d + 1, l, j => (t.node l (sibIndex j), j % 2) :: pathAux t d (l + 1) (j / 2)

/-- Membership proof for the leaf at `index`, computed against the
current state; fails when `index` is outside the occupied range. -/
def createProof (t : IMTree) (index : ℕ) : Except Err MerkleProof :=
  if t.leaves.length ≤ index then .error .outOfRange
  else .ok
    { root := t.root
      leaf := t.leaves.getD index t.zero
      siblings := (t.pathAux t.depth 0 index).map Prod.fst
      pathIndices := (t.pathAux t.depth 0 index).map Prod.snd }

/-- Linear search over the leaf sequence from position `i`; `-1` when the
value is absent. -/
def idxOfAux (member : ℤ) : List ℤ → ℤ → ℤ
  | [], _ => -1
  | x :: xs, i => if x = member then i else idxOfAux member xs (i + 1)

/-- Index of the first leaf equal to `member`, or the `-1` not-found
sentinel. -/
def indexOf (t : IMTree) (member : ℤ) : ℤ := idxOfAux member t.leaves 0

end IMTree

/-- Recomputation of a root from a leaf value, ordered siblings and
ordered path directions (0: current node is the left child). -/
def chainUp (h : ℤ → ℤ → ℤ) : ℤ → List ℤ → List ℕ → ℤ
  | cur, [], _ => cur
  | cur, _ :: _, [] => cur
  | cur, s :: ss, b :: bs =>
    chainUp h (if b % 2 = 0 then h cur s else h s cur) ss bs

/-- The registry wrapper: the constructor stores the configuration, the
tree itself is built by the asynchronous `init`; before `init` completes
the tree handle is absent and every operation on it fails. -/
structure Registry where
  _treeDepth : ℕ
  _zeroValue : ℤ
  _merkleTree : Option IMTree

namespace Registry

/-- The constructor: the tree depth must be in `[16, 32]`; otherwise it
fails with an InvalidConfiguration error and no state is created. -/
def construct (treeDepth : ℕ) (zeroValue : ℤ) : Except Err Registry :=
  if treeDepth < 16 ∨ 32 < treeDepth then .error .invalidConfiguration
  else .ok { _treeDepth := treeDepth, _zeroValue := zeroValue, _merkleTree := none }

/-- `init`: builds the (empty) Merkle tree from the stored configuration
and the initialized Poseidon hash. -/
def init (r : Registry) (poseidon : ℤ → ℤ → ℤ) : Registry :=
  let t : IMTree :=
    { hash := poseidon, depth := r._treeDepth, zero := r._zeroValue, leaves := [] }
  { r with _merkleTree := some t }

/-- The `root` accessor. -/
def root (r : Registry) : Except Err ℤ :=
  match r._merkleTree with
  | none => .error .notInitialized
  | some t => .ok t.root

/-- The `depth` accessor. -/
def depth (r : Registry) : Except Err ℕ :=
  match r._merkleTree with
  | none => .error .notInitialized
  | some t => .ok t.depth

/-- The `zeroValue` accessor (`zeroes[0]` of the tree). -/
def zeroValue (r : Registry) : Except Err ℤ :=
  match r._merkleTree with
  | none => .error .notInitialized
  | some t => .ok t.zero

/-- The `members` accessor: the full leaf sequence in index order. -/
def members (r : Registry) : Except Err (List ℤ) :=
  match r._merkleTree with
  | none => .error .notInitialized
  | some t => .ok t.leaves

/-- `addMember`: inserts an identity commitment into the tree. -/
def addMember (r : Registry) (identityCommitment : ℤ) : Except Err Registry :=
  match r._merkleTree with
  | none => .error .notInitialized
  | some t => (t.insert identityCommitment).map
      fun t' => { r with _merkleTree := some t' }

/-- `removeMember`: deletes (zeroes) the member at `index`. -/
def removeMember (r : Registry) (index : ℕ) : Except Err Registry :=
  match r._merkleTree with
  | none => .error .notInitialized
  | some t => (t.delete index).map fun t' => { r with _merkleTree := some t' }

/-- Modelled from the spec: `membershipProof(index)` (§4.2) — absent from
the provided registry wrapper source — fails with an OutOfRange error for
an invalid index and otherwise returns the ordered sibling values and
path-direction indicators from that leaf to the root, computed against
the current state of the tree. -/
def membershipProof (r : Registry) (index : ℕ) : Except Err MerkleProof :=
  match r._merkleTree with
  | none => .error .notInitialized
  | some t => t.createProof index

/-- `indexOf`: position of a member in the tree, `-1` when absent. -/
def indexOf (r : Registry) (member : ℤ) : Except Err ℤ :=
  match r._merkleTree with
  | none => .error .notInitialized
  | some t => .ok (t.indexOf member)

/-- `addMembers`: inserts an ordered sequence of identity commitments one
at a time via `addMember` (the loop body is skipped entirely on an empty
sequence). -/
def addMembers : Registry → List ℤ → Except Err Registry
  | r, [] => .ok r
  | r, c :: rest =>
    match r.addMember c with
    | .error e => .error e
    | .ok r' => r'.addMembers rest

end Registry

/-- A concrete stand-in pair hash used to instantiate witnesses. -/
def demoHash2 : ℤ → ℤ → ℤ := fun a b => 2 * a + 3 * b + 1

/-- A concrete initialized tree used to instantiate witnesses. -/
def demoTree : IMTree :=
  { hash := demoHash2, depth := 16, zero := 0, leaves := [5, 7] }

/-- A concrete initialized registry used to instantiate witnesses. -/
def demoRegistry : Registry :=
  { _treeDepth := 16, _zeroValue := 0, _merkleTree := some demoTree }

/-- A concrete uninitialized registry used to instantiate witnesses. -/
def demoRegistryRaw : Registry :=
  { _treeDepth := 16, _zeroValue := 0, _merkleTree := none }

theorem pathAux_length (t : IMTree) :
    ∀ d l j, (t.pathAux d l j).length = d := by
  intro d
  induction d with
  | zero => intro l j; simp [IMTree.pathAux]
  | succ d ih => intro l j; simp [IMTree.pathAux, ih]

/-- Recomputing upward along the `(sibling, direction)` path produced by
`pathAux` reaches the ancestor node of the starting position. -/
theorem chainUp_pathAux (t : IMTree) :
    ∀ d l j, chainUp t.hash (t.node l j) ((t.pathAux d l j).map Prod.fst)
        ((t.pathAux d l j).map Prod.snd) = t.node (l + d) (j / 2 ^ d) := by
  intro d
  induction d with
  | zero =>
    intro l j
    simp [IMTree.pathAux, chainUp]
  | succ d ih =>
    intro l j
    rw [IMTree.pathAux]
    simp only [List.map_cons]
    rw [chainUp]
    have hstep : (if j % 2 % 2 = 0
        then t.hash (t.node l j) (t.node l (IMTree.sibIndex j))
        else t.hash (t.node l (IMTree.sibIndex j)) (t.node l j))
        = t.node (l + 1) (j / 2) := by
      rw [Nat.mod_mod_of_dvd _ dvd_rfl]
      by_cases hpar : j % 2 = 0
      · rw [if_pos hpar, IMTree.sibIndex, if_pos hpar]
        have h1 : 2 * (j / 2) = j := by omega
        rw [IMTree.node, h1]
      · rw [if_neg hpar, IMTree.sibIndex, if_neg hpar]
        have h1 : 2 * (j / 2) = j - 1 := by omega
        have h3 : j - 1 + 1 = j := by omega
        rw [IMTree.node, h1, h3]
    rw [hstep, ih (l + 1) (j / 2)]
    have harith : l + 1 + d = l + (d + 1) := by omega
    have hdiv : j / 2 / 2 ^ d = j / 2 ^ (d + 1) := by
      rw [Nat.div_div_eq_div_mul, ← pow_succ']
    rw [harith, hdiv]

/-- C6: constructing a registry fails with InvalidConfiguration exactly
when the depth is outside `[16, 32]` (failing before any state is
created), and any accepted depth `d` yields, after `init`, an empty tree
of depth `d` whose `2 ^ d` leaf slots all hold the zero value, with
insertion failing precisely when the `2 ^ d` capacity is reached. -/
theorem registry_construct_spec (d : ℕ) (z : ℤ) (h2 : ℤ → ℤ → ℤ) :
    (Registry.construct d z = .error .invalidConfiguration ↔ (d < 16 ∨ 32 < d))
    ∧ (16 ≤ d → d ≤ 32 → ∃ r t, Registry.construct d z = .ok r
        ∧ r._merkleTree = none
        ∧ (r.init h2)._merkleTree = some t
        ∧ t.depth = d ∧ t.zero = z ∧ t.leaves = []
        ∧ (∀ i, i < 2 ^ d → t.node 0 i = z)
        ∧ (∀ (t' : IMTree) (v : ℤ), t'.depth = d →
            (t'.insert v = .error .capacityExceeded ↔ 2 ^ d ≤ t'.leaves.length))) := by
  constructor
  · constructor
    · intro h
      by_contra hc
      rw [Registry.construct, if_neg (by omega)] at h
      exact Except.noConfusion h
    · intro h
      rw [Registry.construct, if_pos h]
  · intro h16 h32
    refine ⟨⟨d, z, none⟩, ⟨h2, d, z, []⟩, ?_, rfl, rfl, rfl, rfl, rfl, ?_, ?_⟩
    · rw [Registry.construct, if_neg (by omega)]
    · intro i _
      simp [IMTree.node]
    · intro t' v ht'
      rw [IMTree.insert, ht']
      constructor
      · intro h
        by_contra hc
        rw [if_neg hc] at h
        exact Except.noConfusion h
      · intro h
        rw [if_pos h]

/-- Witness for C6 at depth 20. -/
theorem registry_construct_spec_witness :
    (Registry.construct 20 3 = .error .invalidConfiguration ↔ (20 < 16 ∨ 32 < 20))
    ∧ (∃ r t, Registry.construct 20 3 = .ok r
        ∧ r._merkleTree = none
        ∧ (r.init demoHash2)._merkleTree = some t
        ∧ t.depth = 20 ∧ t.zero = 3 ∧ t.leaves = []
        ∧ (∀ i, i < 2 ^ 20 → t.node 0 i = 3)
        ∧ (∀ (t' : IMTree) (v : ℤ), t'.depth = 20 →
            (t'.insert v = .error .capacityExceeded ↔ 2 ^ 20 ≤ t'.leaves.length))) :=
  ⟨(registry_construct_spec 20 3 demoHash2).1,
   (registry_construct_spec 20 3 demoHash2).2 (by norm_num) (by norm_num)⟩

/-- C7: removing the member at an occupied index zeroes exactly that
slot: the leaf sequence keeps its length, holds the zero value at the
removed index, and is unchanged at every other index. -/
theorem removeMember_preserves_frame (r : Registry) (t : IMTree) (index : ℕ)
    (ht : r._merkleTree = some t) (hi : index < t.leaves.length) :
    ∃ r' l', r.removeMember index = .ok r' ∧ r'.members = .ok l'
      ∧ l'.length = t.leaves.length
      ∧ l'[index]? = some t.zero
      ∧ ∀ j, j ≠ index → l'[j]? = t.leaves[j]? := by
  simp only [Registry.removeMember, ht, IMTree.delete, if_neg (not_le.mpr hi),
    Except.map]
  refine ⟨_, t.leaves.set index t.zero, rfl, rfl, List.length_set .., ?_, ?_⟩
  · exact List.getElem?_set_eq_of_lt t.zero hi
  · intro j hj
    exact List.getElem?_set_ne (fun h => hj h.symm)

/-- Witness for C7 on a concrete registry. -/
theorem removeMember_preserves_frame_witness :
    demoRegistry._merkleTree = some demoTree
    ∧ 1 < demoTree.leaves.length
    ∧ (∃ r' l', demoRegistry.removeMember 1 = .ok r' ∧ r'.members = .ok l'
        ∧ l'.length = demoTree.leaves.length
        ∧ l'[1]? = some demoTree.zero
        ∧ ∀ j, j ≠ 1 → l'[j]? = demoTree.leaves[j]?) :=
  ⟨rfl, by decide,
   removeMember_preserves_frame demoRegistry demoTree 1 rfl (by decide)⟩

/-- C8: `membershipProof(index)` fails with an OutOfRange error for every
index outside the occupied range, and for every occupied index returns
ordered sibling values and path-direction indicators of the current
tree state: `depth` of each, starting at the requested leaf, such that
recomputing upward along them reproduces the current root. -/
theorem membershipProof_spec (r : Registry) (t : IMTree) (index : ℕ)
    (ht : r._merkleTree = some t) (hcap : t.leaves.length ≤ 2 ^ t.depth) :
    (t.leaves.length ≤ index → r.membershipProof index = .error .outOfRange)
    ∧ (index < t.leaves.length → ∃ pf, r.membershipProof index = .ok pf
        ∧ pf.siblings.length = t.depth
        ∧ pf.pathIndices.length = t.depth
        ∧ pf.leaf = t.leaves.getD index t.zero
        ∧ pf.root = t.root
        ∧ chainUp t.hash pf.leaf pf.siblings pf.pathIndices = t.root) := by
  constructor
  · intro h
    simp only [Registry.membershipProof, ht, IMTree.createProof, if_pos h]
  · intro h
    simp only [Registry.membershipProof, ht, IMTree.createProof,
      if_neg (not_le.mpr h)]
    refine ⟨_, rfl, ?_, ?_, rfl, rfl, ?_⟩
    · simp [pathAux_length]
    · simp [pathAux_length]
    · show chainUp t.hash (t.leaves.getD index t.zero) _ _ = _
      have hleaf : t.leaves.getD index t.zero = t.node 0 index := rfl
      rw [hleaf, chainUp_pathAux t t.depth 0 index, Nat.zero_add,
        Nat.div_eq_of_lt (Nat.lt_of_lt_of_le h hcap), IMTree.root]

/-- Witness for C8 on a concrete registry. -/
theorem membershipProof_spec_witness :
    demoRegistry._merkleTree = some demoTree
    ∧ demoTree.leaves.length ≤ 2 ^ demoTree.depth
    ∧ ((demoTree.leaves.length ≤ 1 →
          demoRegistry.membershipProof 1 = .error .outOfRange)
       ∧ (1 < demoTree.leaves.length →
          ∃ pf, demoRegistry.membershipProof 1 = .ok pf
            ∧ pf.siblings.length = demoTree.depth
            ∧ pf.pathIndices.length = demoTree.depth
            ∧ pf.leaf = demoTree.leaves.getD 1 demoTree.zero
            ∧ pf.root = demoTree.root
            ∧ chainUp demoTree.hash pf.leaf pf.siblings pf.pathIndices
                = demoTree.root)) :=
  ⟨rfl, by norm_num [demoTree],
   membershipProof_spec demoRegistry demoTree 1 rfl (by norm_num [demoTree])⟩

/-- C9 counterexample: `addMembers` applied to the empty sequence before
`init` iterates zero times, never touches the absent tree handle, and
returns successfully — so not every membership operation invoked before
the asynchronous setup has completed fails with a NotInitialized error. -/
theorem uninitialized_addMembers_empty_counterexample :
    demoRegistryRaw._merkleTree = none
    ∧ demoRegistryRaw.addMembers [] = .ok demoRegistryRaw :=
  ⟨rfl, rfl⟩

/-- C9 (amended): every membership operation invoked before the registry
tree has been built — `root`, `depth`, `zeroValue`, `members`, `indexOf`,
`addMember`, `removeMember`, `membershipProof`, and `addMembers` on a
non-empty sequence — and every protocol operation invoked before the
Poseidon hash primitive has been initialized, fails with a NotInitialized
error instead of succeeding or returning a partially-initialized result;
the single exception is `addMembers` on the empty sequence, whose loop
body never runs and which returns the unchanged registry successfully. -/
theorem uninitialized_fails (r : Registry) (hr : r._merkleTree = none)
    (index : ℕ) (v a1 identitySecret epoch rlnIdentifier x member c : ℤ)
    (input : List ℤ) (cs : List ℤ) :
    r.root = .error .notInitialized
    ∧ r.depth = .error .notInitialized
    ∧ r.zeroValue = .error .notInitialized
    ∧ r.members = .error .notInitialized
    ∧ r.indexOf member = .error .notInitialized
    ∧ r.addMember v = .error .notInitialized
    ∧ r.addMembers (c :: cs) = .error .notInitialized
    ∧ r.removeMember index = .error .notInitialized
    ∧ r.membershipProof index = .error .notInitialized
    ∧ RLN.poseidon none input = .error .notInitialized
    ∧ RLN.genNullifier none a1 rlnIdentifier = .error .notInitialized
    ∧ RLN.calculateOutput none identitySecret epoch rlnIdentifier x
        = .error .notInitialized
    ∧ r.addMembers [] = .ok r := by
  refine ⟨?_, ?_, ?_, ?_, ?_, ?_, ?_, ?_, ?_, rfl, rfl, rfl, rfl⟩ <;>
    simp [Registry.root, Registry.depth, Registry.zeroValue, Registry.members,
      Registry.indexOf, Registry.addMember, Registry.addMembers,
      Registry.removeMember, Registry.membershipProof, hr]

/-- Witness for C9 on a concrete pre-`init` registry. -/
theorem uninitialized_fails_witness :
    demoRegistryRaw._merkleTree = none
    ∧ demoRegistryRaw.root = .error .notInitialized
    ∧ demoRegistryRaw.members = .error .notInitialized
    ∧ demoRegistryRaw.indexOf 5 = .error .notInitialized
    ∧ demoRegistryRaw.addMembers [4, 5] = .error .notInitialized
    ∧ demoRegistryRaw.addMembers [] = .ok demoRegistryRaw
    ∧ RLN.calculateOutput none 10 1 2 0 = .error .notInitialized := by
  obtain ⟨h1, -, -, h4, h5, -, h7, -, -, -, -, h12, h13⟩ :=
    uninitialized_fails demoRegistryRaw rfl 0 0 0 10 1 2 0 5 4 [] [5]
  exact ⟨rfl, h1, h4, h5, h7, h13, h12⟩

/-! ## Proof generation and verification (src/rln.ts)

The Groth16 backend is an external collaborator: `fullProve` maps a
witness and circuit artifacts to an opaque proof plus an ordered
public-signal sequence, `verify` consumes a verification key, an ordered
public-signal sequence and a proof. -/

/-- The structured public signals of a full RLN proof. -/
structure RLNPublicSignals (S : Type) where
  yShare : S
  merkleRoot : S
  internalNullifier : S
  signalHash : S
  epoch : S
  rlnIdentifier : S

/-- A full proof: opaque proof object plus structured public signals. -/
structure RLNFullProof (Pf S : Type) where
  proof : Pf
  publicSignals : RLNPublicSignals S

/-- The ordered public-signal sequence of a structured signal bundle, in
the fixed contract order. -/
def signalsList {S : Type} (ps : RLNPublicSignals S) : List S :=
  [ps.yShare, ps.merkleRoot, ps.internalNullifier, ps.signalHash, ps.epoch,
   ps.rlnIdentifier]

/-- `RLN.genProof`: runs the backend and names the public signals
`yShare, merkleRoot, internalNullifier, signalHash, epoch, rlnIdentifier`
from indices 0 through 5 of the sequence of the backend. -/
def RLN.genProof {W Pf S : Type} [Inhabited S]
    (fullProve : W → Pf × List S) (witness : W) : RLNFullProof Pf S :=
  { proof := (fullProve witness).1
    publicSignals :=
      { yShare := (fullProve witness).2.getD 0 default
        merkleRoot := (fullProve witness).2.getD 1 default
        internalNullifier := (fullProve witness).2.getD 2 default
        signalHash := (fullProve witness).2.getD 3 default
        epoch := (fullProve witness).2.getD 4 default
        rlnIdentifier := (fullProve witness).2.getD 5 default } }

/-- `RLN.verifyProof`: hands the backend the verification key, the public
signals re-serialized as an array in the fixed contract order, and the
proof object. -/
def RLN.verifyProof {Pf S VK : Type} (verify : VK → List S → Pf → Bool)
    (verificationKey : VK) (fullProof : RLNFullProof Pf S) : Bool :=
  verify verificationKey
    [fullProof.publicSignals.yShare, fullProof.publicSignals.merkleRoot,
     fullProof.publicSignals.internalNullifier, fullProof.publicSignals.signalHash,
     fullProof.publicSignals.epoch, fullProof.publicSignals.rlnIdentifier]
    fullProof.proof

/-- C10: `genProof` names the six backend public signals positionally
(`yShare` ← 0, `merkleRoot` ← 1, `internalNullifier` ← 2,
`signalHash` ← 3, `epoch` ← 4, `rlnIdentifier` ← 5), `verifyProof`
re-serializes the signals of any full proof in that same order, and therefore
verifying a generated proof hands the backend exactly the sequence the
backend originally produced. -/
theorem proof_signal_order_roundtrip {W Pf S VK : Type} [Inhabited S]
    (fullProve : W → Pf × List S) (verify : VK → List S → Pf → Bool)
    (vk : VK) (w : W) (fp : RLNFullProof Pf S)
    (hlen : (fullProve w).2.length = 6) :
    (RLN.genProof fullProve w).publicSignals.yShare = (fullProve w).2.getD 0 default
    ∧ (RLN.genProof fullProve w).publicSignals.merkleRoot
        = (fullProve w).2.getD 1 default
    ∧ (RLN.genProof fullProve w).publicSignals.internalNullifier
        = (fullProve w).2.getD 2 default
    ∧ (RLN.genProof fullProve w).publicSignals.signalHash
        = (fullProve w).2.getD 3 default
    ∧ (RLN.genProof fullProve w).publicSignals.epoch
        = (fullProve w).2.getD 4 default
    ∧ (RLN.genProof fullProve w).publicSignals.rlnIdentifier
        = (fullProve w).2.getD 5 default
    ∧ RLN.verifyProof verify vk fp
        = verify vk (signalsList fp.publicSignals) fp.proof
    ∧ signalsList (RLN.genProof fullProve w).publicSignals = (fullProve w).2
    ∧ RLN.verifyProof verify vk (RLN.genProof fullProve w)
        = verify vk (fullProve w).2 (fullProve w).1 := by
  have hser : signalsList (RLN.genProof fullProve w).publicSignals
      = (fullProve w).2 := by
    rcases hl : (fullProve w).2 with - | ⟨a, - | ⟨b, - | ⟨c, - | ⟨d, - | ⟨e, - | ⟨f, rest⟩⟩⟩⟩⟩⟩ <;>
      rw [hl] at hlen <;> simp at hlen
    subst hlen
    simp [signalsList, RLN.genProof, hl]
  refine ⟨rfl, rfl, rfl, rfl, rfl, rfl, rfl, hser, ?_⟩
  show verify vk (signalsList (RLN.genProof fullProve w).publicSignals) _ = _
  rw [hser]
  rfl

/-- A concrete stand-in prove backend used to instantiate witnesses. -/
def demoProve : Unit → Unit × List ℕ := fun _ => ((), [1, 2, 3, 4, 5, 6])

/-- A concrete stand-in verify backend used to instantiate witnesses. -/
def demoVerify : Unit → List ℕ → Unit → Bool := fun _ l _ => l.length == 6

/-- Witness for C10 on a concrete backend. -/
theorem proof_signal_order_roundtrip_witness :
    (demoProve ()).2.length = 6
    ∧ signalsList (RLN.genProof demoProve ()).publicSignals = (demoProve ()).2
    ∧ RLN.verifyProof demoVerify () (RLN.genProof demoProve ())
        = demoVerify () (demoProve ()).2 (demoProve ()).1 :=
  ⟨rfl,
   (proof_signal_order_roundtrip demoProve demoVerify () ()
     (RLN.genProof demoProve ()) rfl).2.2.2.2.2.2.2.1,
   (proof_signal_order_roundtrip demoProve demoVerify () ()
     (RLN.genProof demoProve ()) rfl).2.2.2.2.2.2.2.2⟩
